import Mathlib

/-!
Shallow embedding of `mpc/mpc.py` (a differentiable box-constrained MPC/iLQR
solver) and proofs about the claims of its specification.

Floating-point scalars of the source are embedded as elements of an arbitrary
linear ordered commutative ring `α` (instantiated with `ℤ` in concrete
witnesses); tensors are embedded elementwise as functions of their indices or
as lists; Python `assert` failures and other fatal exits are embedded as
`Except` errors.
-/

section Prelims

variable {α : Type} [LinearOrderedCommRing α]

/-- Vectors (one batch element's state or control) as lists of scalars. -/
abbrev Vec (α : Type) := List α

/-- Matrices as lists of row vectors. -/
abbrev Mat (α : Type) := List (Vec α)

/-- Dot product of two vectors, `sum(a_i * b_i)`. -/
def dotv (a b : Vec α) : α := (List.zipWith (· * ·) a b).sum

/-- Matrix–vector product; embeds `util.bmv` for one batch element. -/
def bmv (M : Mat α) (v : Vec α) : Vec α := M.map (fun r => dotv r v)

/-- Elementwise vector subtraction. -/
def vsub (a b : Vec α) : Vec α := List.zipWith (· - ·) a b

/-- Maximum of a nonempty list (Python `max(l)`); `0` on the empty list,
which the source never reaches. -/
def listMax : List α → α
  | [] => 0
  | h :: t => t.foldl max h

/-- Maximum of `f 0, …, f (n-1)` (Python `max` over a length-`n` list). -/
def maxOver (n : ℕ) (f : ℕ → α) : α := listMax ((List.range n).map f)

end Prelims

section InitModel

variable {α : Type} [LinearOrderedCommRing α]

/-- Arguments of `MPC.__init__` that participate in its assertions
(lines 106, 107, 138, 143–144 of `mpc.py`).  Tensor-valued arguments are
abstracted to their presence/absence, which is all the assertions inspect. -/
structure MPCInitArgs (α : Type) where
  u_lower : Option α
  u_upper : Option α
  max_linesearch_iter : ℤ
  F : Option α
  f : Option α
  slew_rate_penalty : Option α
deriving DecidableEq

/-- The default values of those arguments in the `MPC.__init__` signature. -/
def mpcDefaultArgs (α : Type) : MPCInitArgs α :=
  { u_lower := none, u_upper := none, max_linesearch_iter := 10,
    F := none, f := none, slew_rate_penalty := none }

/-- Assertion failures `MPC.__init__` can raise, in source order. -/
inductive InitError where
  /-- line 106: `assert (u_lower is None) == (u_upper is None)` -/
  | boundsOnlyOne
  /-- line 107: `assert max_linesearch_iter > 0` -/
  | linesearchIterNonpos
  /-- line 138: `assert f is None` -/
  | fUntested
  /-- line 144: `assert F is None and f is None, 'unimplemented'` -/
  | slewWithAffine
deriving DecidableEq

/-- The assertion sequence run by `MPC.__init__`, in source order. -/
def mpc_init (a : MPCInitArgs α) : Except InitError Unit :=
  if ¬(a.u_lower.isNone = a.u_upper.isNone) then .error .boundsOnlyOne
  else if ¬(0 < a.max_linesearch_iter) then .error .linesearchIterNonpos
  else if a.f.isSome then .error .fUntested
  else if a.slew_rate_penalty.isSome ∧ ¬(a.F.isNone ∧ a.f.isNone) then
    .error .slewWithAffine
  else .ok ()

end InitModel

section ForwardEntry

/-- Fatal error at entry to `MPC.forward`. -/
inductive ForwardError where
  /-- line 164: `assert False, 'Could not infer batch size, pass in as n_batch'` -/
  | couldNotInferBatch
deriving DecidableEq

/-- Batch-size inference at entry to `MPC.forward` (lines 159–164):
from `C.size(1)` when `C` is 4-dimensional, else from the configured
`n_batch`, else a fatal assertion. -/
def infer_n_batch (C_ndim C_size1 : ℕ) (n_batch : Option ℕ) :
    Except ForwardError ℕ :=
  if C_ndim = 4 then .ok C_size1
  else
    match n_batch with
    | some nb => .ok nb
    | none => .error .couldNotInferBatch

end ForwardEntry

section OuterLoop

variable {α : Type} [LinearOrderedCommRing α]

/-- Per-iteration output of `solve_lqr_subproblem` consumed by the outer loop
(the `for_out` record): per-batch-element realized cost and full
control-step norm.  `LQRStep` itself is outside the visible sources, so one
outer iteration's output is abstracted as a function of the iteration
index. -/
structure ForOut (α : Type) where
  costs : ℕ → α
  full_du_norm : ℕ → α

/-- The `best` record of `MPC.forward` (lines 215–229): per batch element the
best cost and full control-step norm seen so far, and — standing in for the
stored `x`/`u` slices — the index of the outer iteration that produced that
element's stored trajectory. -/
structure BestRec (α : Type) where
  iterOf : ℕ → ℕ
  costs : ℕ → α
  full_du_norm : ℕ → α

/-- Mutable state threaded through the outer loop of `MPC.forward`:
the `best` record (`None` before the first iteration) and the
`n_not_improved` counter. -/
structure LoopState (α : Type) where
  best : Option (BestRec α)
  n_not_improved : ℕ

/-- One step of the `for j in range(n_batch)` loop of lines 223–229: if the
new cost at element `j` is at most the recorded best minus `best_cost_eps`,
overwrite element `j` of the best record with iteration `i`'s data and reset
the counter to zero. -/
def bestUpdateBody (best_cost_eps : α) (i : ℕ) (fo : ForOut α)
    (p : BestRec α × ℕ) (j : ℕ) : BestRec α × ℕ :=
  if fo.costs j ≤ p.1.costs j - best_cost_eps then
    ({ iterOf := fun m => if m = j then i else p.1.iterOf m,
       costs := fun m => if m = j then fo.costs j else p.1.costs m,
       full_du_norm :=
         fun m => if m = j then fo.full_du_norm j else p.1.full_du_norm m },
     0)
  else p

/-- The whole `for j in range(n_batch)` loop of lines 223–229. -/
def bestUpdate (best_cost_eps : α) (i : ℕ) (fo : ForOut α) (n_batch : ℕ)
    (b : BestRec α) (cnt : ℕ) : BestRec α × ℕ :=
  (List.range n_batch).foldl (bestUpdateBody best_cost_eps i fo) (b, cnt)

/-- The body of one outer iteration after the LQR step returns (lines
210–229): increment `n_not_improved`, then either initialize the best record
(first iteration) or run the per-element best update. -/
def forwardIterUpdate (best_cost_eps : α) (n_batch i : ℕ) (fo : ForOut α)
    (s : LoopState α) : LoopState α :=
  let cnt := s.n_not_improved + 1
  match s.best with
  | none =>
      { best := some
          { iterOf := fun _ => i, costs := fo.costs,
            full_du_norm := fo.full_du_norm },
        n_not_improved := cnt }
  | some b =>
      let p := bestUpdate best_cost_eps i fo n_batch b cnt
      { best := some p.1, n_not_improved := p.2 }

/-- The outer loop of `MPC.forward` (lines 193–245), abstracted over `step`,
the per-iteration `for_out` of the LQR subproblem: run the body, then break
when `max(for_out.full_du_norm) < eps` or `n_not_improved >
not_improved_lim` (lines 243–244).  Returns the final state and the number
of iterations executed; `fuel` is the number of iterations remaining. -/
def forwardLoopGo (best_cost_eps eps : α) (not_improved_lim n_batch : ℕ)
    (step : ℕ → ForOut α) :
    ℕ → ℕ → LoopState α → LoopState α × ℕ
  | 0, i, s => (s, i)
  | fuel+1, i, s =>
      let fo := step i
      let s' := forwardIterUpdate best_cost_eps n_batch i fo s
      if maxOver n_batch fo.full_du_norm < eps ∨
          s'.n_not_improved > not_improved_lim then (s', i+1)
      else forwardLoopGo best_cost_eps eps not_improved_lim n_batch step fuel
        (i+1) s'

/-- The outer loop of `MPC.forward`, started from `best = None`,
`n_not_improved = 0`, with at most `lqr_iter` iterations. -/
def forwardLoop (best_cost_eps eps : α) (not_improved_lim n_batch lqr_iter : ℕ)
    (step : ℕ → ForOut α) : LoopState α × ℕ :=
  forwardLoopGo best_cost_eps eps not_improved_lim n_batch step lqr_iter 0
    ⟨none, 0⟩

/-- The loop state reached after `n` outer-iteration bodies, ignoring the
break test (used to characterize where the loop actually stops). -/
def forwardStateAfter (best_cost_eps : α) (n_batch : ℕ) (step : ℕ → ForOut α) :
    ℕ → LoopState α
  | 0 => ⟨none, 0⟩
  | n+1 =>
      forwardIterUpdate best_cost_eps n_batch n (step n)
        (forwardStateAfter best_cost_eps n_batch step n)

/-- The break condition of lines 243–244, evaluated at the end of the body of
outer iteration `i`. -/
def breakCondAt (best_cost_eps eps : α) (not_improved_lim n_batch : ℕ)
    (step : ℕ → ForOut α) (i : ℕ) : Prop :=
  maxOver n_batch (step i).full_du_norm < eps ∨
    (forwardStateAfter best_cost_eps n_batch step (i+1)).n_not_improved >
      not_improved_lim

/-- Best cost currently recorded for element `j` (`0` before the first
iteration, which the source never reads). -/
def bestCosts (s : LoopState α) (j : ℕ) : α :=
  match s.best with
  | some b => b.costs j
  | none => 0

/-- Iteration tag of the trajectory currently recorded for element `j`. -/
def bestIterOf (s : LoopState α) (j : ℕ) : ℕ :=
  match s.best with
  | some b => b.iterOf j
  | none => 0

/-- Full control-step norm currently recorded for element `j`. -/
def bestNorm (s : LoopState α) (j : ℕ) : α :=
  match s.best with
  | some b => b.full_du_norm j
  | none => 0

end OuterLoop

section ClaimLoopModel

variable {α : Type} [LinearOrderedCommRing α]

/-- Modelled from the spec: the outer-loop state as claim C2 and spec
items 4.1.d–e describe it — a best record together with a separate
non-improvement counter for every batch element (the visible source instead
keeps one counter shared by the whole batch). -/
structure ClaimLoopState (α : Type) where
  best : Option (BestRec α)
  counters : ℕ → ℕ

/-- Modelled from the spec: one outer-iteration body under the per-element
reading — for each batch element independently, a cost improving on that
element's best by more than `best_cost_eps` is adopted and resets that
element's counter; otherwise that element's counter is incremented. -/
def claimIterUpdate (best_cost_eps : α) (n_batch i : ℕ) (fo : ForOut α)
    (s : ClaimLoopState α) : ClaimLoopState α :=
  match s.best with
  | none =>
      { best := some
          { iterOf := fun _ => i, costs := fo.costs,
            full_du_norm := fo.full_du_norm },
        counters := s.counters }
  | some b =>
      { best := some
          { iterOf := fun j =>
              if b.costs j - fo.costs j > best_cost_eps then i else b.iterOf j,
            costs := fun j =>
              if b.costs j - fo.costs j > best_cost_eps then fo.costs j
              else b.costs j,
            full_du_norm := fun j =>
              if b.costs j - fo.costs j > best_cost_eps then fo.full_du_norm j
              else b.full_du_norm j },
        counters := fun j =>
          if b.costs j - fo.costs j > best_cost_eps then 0
          else s.counters j + 1 }

/-- Modelled from the spec: the outer loop under the per-element reading,
terminating when the maximum full control-step norm falls below `eps` or when
any element's counter exceeds `not_improved_lim` (spec item 4.1.e). -/
def claimLoopGo (best_cost_eps eps : α) (not_improved_lim n_batch : ℕ)
    (step : ℕ → ForOut α) :
    ℕ → ℕ → ClaimLoopState α → ClaimLoopState α × ℕ
  | 0, i, s => (s, i)
  | fuel+1, i, s =>
      let fo := step i
      let s' := claimIterUpdate best_cost_eps n_batch i fo s
      if maxOver n_batch fo.full_du_norm < eps ∨
          ((List.range n_batch).any
            (fun j => decide (s'.counters j > not_improved_lim))) = true then
        (s', i+1)
      else claimLoopGo best_cost_eps eps not_improved_lim n_batch step fuel
        (i+1) s'

/-- Modelled from the spec: the whole outer loop under the per-element
reading of claim C2. -/
def claimLoop (best_cost_eps eps : α) (not_improved_lim n_batch lqr_iter : ℕ)
    (step : ℕ → ForOut α) : ClaimLoopState α × ℕ :=
  claimLoopGo best_cost_eps eps not_improved_lim n_batch step lqr_iter 0
    ⟨none, fun _ => 0⟩

end ClaimLoopModel

section Linearize

variable {α : Type} [LinearOrderedCommRing α]

/-- The four values of the `GradMethods` enum (lines 18–22). -/
inductive GradMethods where
  | AUTO_DIFF
  | FINITE_DIFF
  | ANALYTIC
  | ANALYTIC_CHECK
deriving DecidableEq

/-- Fatal exits of `MPC.linearize_dynamics`. -/
inductive LinError where
  /-- line 454: `assert False # Not updated` in the `ANALYTIC_CHECK` branch -/
  | assertionFailure
  /-- `torch.stack` of an empty list (lines 498–499) when `T < 2` -/
  | emptyStack
deriving DecidableEq

/-- One timestep of the `ANALYTIC` branch (lines 393–422) for one batch
element: query `dynamics.grad_input` for the Jacobian blocks `R`, `S` at the
nominal point and form the residual `f = dyn(x,u) - R·x - S·u` (line 413). -/
def linearize_analytic_at (dyn : Vec α → Vec α → Vec α)
    (grad_input : Vec α → Vec α → Mat α × Mat α) (xt ut : Vec α) :
    (Mat α × Mat α) × Vec α :=
  let RS := grad_input xt ut
  (RS, vsub (vsub (dyn xt ut) (bmv RS.1 xt)) (bmv RS.2 ut))

/-- The `ANALYTIC` branch over all timesteps `t = 0..T-2`: the source
flattens `[T-1, B, …]` into one batch and calls `grad_input` once, which
elementwise is `linearize_analytic_at` at each timestep of the passed
nominal trajectory. -/
def linearize_analytic (dyn : Vec α → Vec α → Vec α)
    (grad_input : Vec α → Vec α → Mat α × Mat α) (T : ℕ) (xs us : ℕ → Vec α) :
    List ((Mat α × Mat α) × Vec α) :=
  (List.range (T-1)).map
    (fun t => linearize_analytic_at dyn grad_input (xs t) (us t))

/-- The per-timestep loop of the non-analytic branch (lines 424–499): the
trajectory is rebuilt by rolling `dyn` forward from `x[0]`, the Jacobian
blocks come from `jac` (reverse-mode automatic differentiation for
`AUTO_DIFF`, `util.jacobian` finite differences for `FINITE_DIFF`), and the
residual is `f_t = new_x - R_t·x_t - S_t·u_t` (line 492). -/
def linOtherGo (dyn : Vec α → Vec α → Vec α)
    (jac : Vec α → Vec α → Mat α × Mat α) (us : ℕ → Vec α) :
    ℕ → ℕ → Vec α → List ((Mat α × Mat α) × Vec α)
  | 0, _, _ => []
  | steps+1, t, xt =>
      let ut := us t
      let new_x := dyn xt ut
      let RS := jac xt ut
      let ft := vsub (vsub new_x (bmv RS.1 xt)) (bmv RS.2 ut)
      (RS, ft) :: linOtherGo dyn jac us steps (t+1) new_x

/-- The non-analytic branch over all timesteps `t = 0..T-2`, starting the
internal rollout at `x[0]` (line 425–426). -/
def linearize_other (dyn : Vec α → Vec α → Vec α)
    (jac : Vec α → Vec α → Mat α × Mat α) (T : ℕ) (x0 : Vec α)
    (us : ℕ → Vec α) : List ((Mat α × Mat α) × Vec α) :=
  linOtherGo dyn jac us (T-1) 0 x0

/-- Dispatch of `MPC.linearize_dynamics` (lines 385–502) on `grad_method`
for one batch element.  `grad_input` is the dynamics object's analytic
Jacobian, `jacAD` the reverse-mode autodifferentiation Jacobian, `jacFD`
the finite-difference Jacobian.  In the `ANALYTIC_CHECK` branch the loop
body reaches `assert False # Not updated` (line 454) at `t = 0` whenever
`T ≥ 2`; with `T < 2` the loop produces no entries and `torch.stack([])`
(line 498) raises instead.  The cross-validation of lines 455–468 is
unreachable. -/
def linearize_dynamics (method : GradMethods) (dyn : Vec α → Vec α → Vec α)
    (grad_input jacAD jacFD : Vec α → Vec α → Mat α × Mat α) (T : ℕ)
    (xs us : ℕ → Vec α) : Except LinError (List ((Mat α × Mat α) × Vec α)) :=
  match method with
  | .ANALYTIC => .ok (linearize_analytic dyn grad_input T xs us)
  | .AUTO_DIFF => .ok (linearize_other dyn jacAD T (xs 0) us)
  | .FINITE_DIFF => .ok (linearize_other dyn jacFD T (xs 0) us)
  | .ANALYTIC_CHECK =>
      if 2 ≤ T then .error .assertionFailure else .error .emptyStack

end Linearize

section DetachModel

variable {α : Type} [LinearOrderedCommRing α]

/-- Outcome of the post-loop unconverged handling of `MPC.forward`:
either the fatal `assert False` of line 260, or a normal return carrying,
per batch element, whether its output stayed attached to the
differentiation graph, plus whether the warning was printed. -/
inductive ForwardOutcome where
  | fatal
  | returned (attached : ℕ → Bool) (warned : Bool)

/-- True exactly on the fatal outcome. -/
def isFatal : ForwardOutcome → Bool
  | .fatal => true
  | .returned _ _ => false

/-- The post-loop unconverged handling (lines 257–270): everything is
guarded by `self.detach_unconverged`; inside, the trigger compares the
maximum of the best records' full control-step norms against `eps`
(line 258), `exit_unconverged` raises (line 260), the warning prints when
`verbose >= 0` (line 262), and the kept-attached mask
`I = for_out.full_du_norm < self.eps` (line 266) is computed from the LAST
iteration's norms, not the best records'. -/
def detachPhase (detach_unconverged exit_unconverged : Bool) (verbose : ℤ)
    (eps : α) (n_batch : ℕ) (best_norms last_norms : ℕ → α) : ForwardOutcome :=
  if detach_unconverged then
    if maxOver n_batch best_norms > eps then
      if exit_unconverged then .fatal
      else .returned (fun j => decide (last_norms j < eps))
        (decide (0 ≤ verbose))
    else .returned (fun _ => true) false
  else .returned (fun _ => true) false

end DetachModel

section LQRForwardModel

variable {α : Type} [LinearOrderedCommRing α]

/-- Modelled from the spec: the control update of the LQR Step forward
rollout (`LQRStep` is not among the visible sources; `solve_lqr_subproblem`
lines 275–298 only constructs and invokes it).  Per spec §4.3, the forward
phase computes, for each timestep, the control update from the feedback
term and the feedforward term scaled by the line-search step size `alpha`,
"clipped into the box" `[u_lower, u_upper]` — `clamp` is
`min(max(v, lo), hi)`. -/
def lqrForwardControl (u_nom fb ff alpha lo hi : α) : α :=
  min hi (max lo (u_nom + alpha * (fb + ff)))

/-- Modelled from the spec: the forward-rollout control sequence,
elementwise over timestep `t`, batch element `b` and control dimension `m`
(each batch element has its own line-search step size `alpha b`). -/
def lqrForwardPass (u_nom fb ff : ℕ → ℕ → ℕ → α) (alpha : ℕ → α)
    (u_lower u_upper : ℕ → ℕ → ℕ → α) : ℕ → ℕ → ℕ → α :=
  fun t b m =>
    lqrForwardControl (u_nom t b m) (fb t b m) (ff t b m) (alpha b)
      (u_lower t b m) (u_upper t b m)

end LQRForwardModel

section ConcreteData

/-- Concrete per-iteration LQR outputs: element 0's cost falls by 2 every
iteration, element 1's never moves, and no norm ever converges. -/
def stepCX : ℕ → ForOut ℤ :=
  fun i => ⟨fun j => if j = 0 then -2 * (i : ℤ) else 0, fun _ => 10⟩

/-- Concrete per-iteration LQR outputs with constant costs and
non-converging norms. -/
def stepFlat : ℕ → ForOut ℤ := fun _ => ⟨fun _ => 0, fun _ => 10⟩

/-- Concrete LQR output for one iteration: element 0 improves, element 1
does not. -/
def foW : ForOut ℤ := ⟨fun j => if j = 0 then -5 else 0, fun _ => 3⟩

/-- Concrete best record with all costs 0. -/
def bW : BestRec ℤ := ⟨fun _ => 0, fun _ => 0, fun _ => 9⟩

/-- Concrete scalar dynamics `x_{t+1} = x_t + u_t`. -/
def dynC : Vec ℤ → Vec ℤ → Vec ℤ :=
  fun x u => [x.getD 0 0 + u.getD 0 0]

/-- The exact Jacobian of `dynC`: `R = [[1]]`, `S = [[1]]`. -/
def jacC : Vec ℤ → Vec ℤ → Mat ℤ × Mat ℤ := fun _ _ => ([[1]], [[1]])

/-- A deliberately wrong analytic Jacobian, disagreeing with `jacC`. -/
def jacBadC : Vec ℤ → Vec ℤ → Mat ℤ × Mat ℤ := fun _ _ => ([[5]], [[7]])

/-- The nominal trajectory of `dynC` under unit controls from `x_0 = 0`. -/
def xsC : ℕ → Vec ℤ := fun t => [(t : ℤ)]

/-- Unit controls. -/
def usC : ℕ → Vec ℤ := fun _ => [1]

end ConcreteData

section HelperLemmas

variable {α : Type} [LinearOrderedCommRing α]

/-- Indices not in the processed list keep their best-record entries. -/
lemma foldl_bestUpdateBody_untouched (best_cost_eps : α) (i : ℕ) (fo : ForOut α)
    (l : List ℕ) (p : BestRec α × ℕ) (m : ℕ) (hm : m ∉ l) :
    ((l.foldl (bestUpdateBody best_cost_eps i fo) p).1.costs m = p.1.costs m) ∧
    ((l.foldl (bestUpdateBody best_cost_eps i fo) p).1.iterOf m = p.1.iterOf m) ∧
    ((l.foldl (bestUpdateBody best_cost_eps i fo) p).1.full_du_norm m
      = p.1.full_du_norm m) := by
  induction l generalizing p with
  | nil => exact ⟨rfl, rfl, rfl⟩
  | cons h t ih =>
    have hmh : m ≠ h := fun e => hm (e ▸ List.mem_cons_self h t)
    have hmt : m ∉ t := fun c => hm (List.mem_cons_of_mem h c)
    have hb : ((bestUpdateBody best_cost_eps i fo p h).1.costs m = p.1.costs m) ∧
        ((bestUpdateBody best_cost_eps i fo p h).1.iterOf m = p.1.iterOf m) ∧
        ((bestUpdateBody best_cost_eps i fo p h).1.full_du_norm m
          = p.1.full_du_norm m) := by
      unfold bestUpdateBody
      split
      · simp [hmh]
      · exact ⟨rfl, rfl, rfl⟩
    have ht := ih (bestUpdateBody best_cost_eps i fo p h) hmt
    simp only [List.foldl_cons]
    exact ⟨ht.1.trans hb.1, ht.2.1.trans hb.2.1, ht.2.2.trans hb.2.2⟩

/-- Unfolding one step of the per-element best-update loop. -/
lemma bestUpdate_succ (best_cost_eps : α) (i : ℕ) (fo : ForOut α) (n : ℕ)
    (b : BestRec α) (cnt : ℕ) :
    bestUpdate best_cost_eps i fo (n+1) b cnt
      = bestUpdateBody best_cost_eps i fo
          (bestUpdate best_cost_eps i fo n b cnt) n := by
  unfold bestUpdate
  rw [List.range_succ, List.foldl_append]
  rfl

/-- Characterization of the best-record entries after the per-element loop:
element `j < n_batch` is overwritten with iteration `i`'s data exactly when
its new cost is at most the recorded best minus `best_cost_eps`, and is kept
unchanged otherwise. -/
lemma bestUpdate_entry (best_cost_eps : α) (i : ℕ) (fo : ForOut α) (n : ℕ)
    (b : BestRec α) (cnt : ℕ) (j : ℕ) (hj : j < n) :
    ((fo.costs j ≤ b.costs j - best_cost_eps) →
      (bestUpdate best_cost_eps i fo n b cnt).1.costs j = fo.costs j ∧
      (bestUpdate best_cost_eps i fo n b cnt).1.iterOf j = i ∧
      (bestUpdate best_cost_eps i fo n b cnt).1.full_du_norm j
        = fo.full_du_norm j) ∧
    (¬(fo.costs j ≤ b.costs j - best_cost_eps) →
      (bestUpdate best_cost_eps i fo n b cnt).1.costs j = b.costs j ∧
      (bestUpdate best_cost_eps i fo n b cnt).1.iterOf j = b.iterOf j ∧
      (bestUpdate best_cost_eps i fo n b cnt).1.full_du_norm j
        = b.full_du_norm j) := by
  induction n with
  | zero => omega
  | succ n ih =>
    rw [bestUpdate_succ]
    rcases Nat.lt_succ_iff_lt_or_eq.mp hj with hj' | hj'
    · have hjn : j ≠ n := Nat.ne_of_lt hj'
      have ihj := ih hj'
      have hbody : ∀ q : BestRec α × ℕ,
          ((bestUpdateBody best_cost_eps i fo q n).1.costs j = q.1.costs j) ∧
          ((bestUpdateBody best_cost_eps i fo q n).1.iterOf j = q.1.iterOf j) ∧
          ((bestUpdateBody best_cost_eps i fo q n).1.full_du_norm j
            = q.1.full_du_norm j) := by
        intro q
        unfold bestUpdateBody
        split
        · simp [hjn]
        · exact ⟨rfl, rfl, rfl⟩
      have hq := hbody (bestUpdate best_cost_eps i fo n b cnt)
      constructor
      · intro hc
        obtain ⟨e1, e2, e3⟩ := ihj.1 hc
        exact ⟨hq.1.trans e1, hq.2.1.trans e2, hq.2.2.trans e3⟩
      · intro hc
        obtain ⟨e1, e2, e3⟩ := ihj.2 hc
        exact ⟨hq.1.trans e1, hq.2.1.trans e2, hq.2.2.trans e3⟩
    · subst hj'
      have hu := foldl_bestUpdateBody_untouched best_cost_eps i fo
        (List.range j) (b, cnt) j (by simp)
      constructor
      · intro hc
        unfold bestUpdateBody
        rw [if_pos (by rw [show (bestUpdate best_cost_eps i fo j b cnt).1.costs j
              = b.costs j from hu.1]; exact hc)]
        simp
      · intro hc
        unfold bestUpdateBody
        rw [if_neg (by rw [show (bestUpdate best_cost_eps i fo j b cnt).1.costs j
              = b.costs j from hu.1]; exact hc)]
        exact hu

/-- Characterization of the counter after the per-element loop: it is reset
to zero exactly when some element's cost improved on its recorded best by at
least `best_cost_eps`, and keeps its incoming value otherwise. -/
lemma bestUpdate_counter (best_cost_eps : α) (i : ℕ) (fo : ForOut α) (n : ℕ)
    (b : BestRec α) (cnt : ℕ) :
    ((∃ k, k < n ∧ fo.costs k ≤ b.costs k - best_cost_eps) →
      (bestUpdate best_cost_eps i fo n b cnt).2 = 0) ∧
    ((∀ k, k < n → ¬(fo.costs k ≤ b.costs k - best_cost_eps)) →
      (bestUpdate best_cost_eps i fo n b cnt).2 = cnt) := by
  induction n with
  | zero =>
    exact ⟨fun ⟨k, hk, _⟩ => absurd hk (by omega), fun _ => rfl⟩
  | succ n ih =>
    have hu := foldl_bestUpdateBody_untouched best_cost_eps i fo
      (List.range n) (b, cnt) n (by simp)
    constructor
    · rintro ⟨k, hk, hck⟩
      rw [bestUpdate_succ]
      by_cases hcn : fo.costs n ≤ b.costs n - best_cost_eps
      · unfold bestUpdateBody
        rw [if_pos (by rw [show (bestUpdate best_cost_eps i fo n b cnt).1.costs n
              = b.costs n from hu.1]; exact hcn)]
      · have hkn : k < n := by
          rcases Nat.lt_succ_iff_lt_or_eq.mp hk with h | h
          · exact h
          · exact absurd (h ▸ hck) hcn
        have h0 := ih.1 ⟨k, hkn, hck⟩
        unfold bestUpdateBody
        split
        · rfl
        · exact h0
    · intro hall
      have hcn : ¬(fo.costs n ≤ b.costs n - best_cost_eps) :=
        hall n (Nat.lt_succ_self n)
      rw [bestUpdate_succ]
      unfold bestUpdateBody
      rw [if_neg (by rw [show (bestUpdate best_cost_eps i fo n b cnt).1.costs n
            = b.costs n from hu.1]; exact hcn)]
      exact ih.2 (fun k hk => hall k (Nat.lt_succ_of_lt hk))

/-- Master characterization of `forwardLoopGo`: starting at iteration `i` in
the state reached after `i` bodies, it executes bodies in order, stops at the
first iteration whose end-of-body break test succeeds, and never runs past
its fuel. -/
lemma forwardLoopGo_spec (best_cost_eps eps : α) (lim nb : ℕ)
    (step : ℕ → ForOut α) (total : ℕ) :
    ∀ (fuel i : ℕ) (s : LoopState α),
      s = forwardStateAfter best_cost_eps nb step i →
      i + fuel = total →
      i ≤ (forwardLoopGo best_cost_eps eps lim nb step fuel i s).2 ∧
      (forwardLoopGo best_cost_eps eps lim nb step fuel i s).2 ≤ total ∧
      (forwardLoopGo best_cost_eps eps lim nb step fuel i s).1
        = forwardStateAfter best_cost_eps nb step
            (forwardLoopGo best_cost_eps eps lim nb step fuel i s).2 ∧
      (∀ k, i ≤ k →
        k + 1 < (forwardLoopGo best_cost_eps eps lim nb step fuel i s).2 →
        ¬ breakCondAt best_cost_eps eps lim nb step k) ∧
      ((forwardLoopGo best_cost_eps eps lim nb step fuel i s).2 < total →
        i < (forwardLoopGo best_cost_eps eps lim nb step fuel i s).2 ∧
        breakCondAt best_cost_eps eps lim nb step
          ((forwardLoopGo best_cost_eps eps lim nb step fuel i s).2 - 1)) := by
  intro fuel
  induction fuel with
  | zero =>
    intro i s hs hi
    simp only [forwardLoopGo]
    exact ⟨le_refl i, by omega, hs, fun k hk hk1 => absurd hk1 (by omega),
      fun h => absurd h (by omega)⟩
  | succ fuel ih =>
    intro i s hs hi
    have hs' : forwardIterUpdate best_cost_eps nb i (step i) s
        = forwardStateAfter best_cost_eps nb step (i+1) := by
      rw [hs]; rfl
    by_cases hbr : maxOver nb (step i).full_du_norm < eps ∨
        (forwardIterUpdate best_cost_eps nb i (step i) s).n_not_improved > lim
    · have hrun : forwardLoopGo best_cost_eps eps lim nb step (fuel+1) i s
          = (forwardIterUpdate best_cost_eps nb i (step i) s, i+1) := by
        simp only [forwardLoopGo]
        rw [if_pos hbr]
      have hbc : breakCondAt best_cost_eps eps lim nb step i := by
        unfold breakCondAt
        rw [← hs']
        exact hbr
      rw [hrun]
      exact ⟨Nat.le_succ i, by omega, hs', fun k hk hk1 => absurd hk1 (by omega),
        fun _ => ⟨Nat.lt_succ_self i, hbc⟩⟩
    · have hrun : forwardLoopGo best_cost_eps eps lim nb step (fuel+1) i s
          = forwardLoopGo best_cost_eps eps lim nb step fuel (i+1)
              (forwardIterUpdate best_cost_eps nb i (step i) s) := by
        simp only [forwardLoopGo]
        rw [if_neg hbr]
      have hnbc : ¬ breakCondAt best_cost_eps eps lim nb step i := by
        unfold breakCondAt
        rw [← hs']
        exact hbr
      have hrec := ih (i+1) (forwardIterUpdate best_cost_eps nb i (step i) s)
        hs' (by omega)
      rw [hrun]
      refine ⟨by omega, hrec.2.1, hrec.2.2.1, ?_, ?_⟩
      · intro k hk hk1
        rcases Nat.eq_or_lt_of_le hk with hk' | hk'
        · rw [← hk']; exact hnbc
        · exact hrec.2.2.2.1 k hk' hk1
      · intro hlt
        exact ⟨by omega, (hrec.2.2.2.2 hlt).2⟩

/-- After any outer-iteration body the best record is present. -/
lemma forwardIterUpdate_best_isSome (best_cost_eps : α) (n_batch i : ℕ)
    (fo : ForOut α) (s : LoopState α) :
    ∃ b', (forwardIterUpdate best_cost_eps n_batch i fo s).best = some b' := by
  rcases hs : s.best with _ | b
  · exact ⟨⟨fun _ => i, fo.costs, fo.full_du_norm⟩,
      by simp [forwardIterUpdate, hs]⟩
  · exact ⟨(bestUpdate best_cost_eps i fo n_batch b (s.n_not_improved + 1)).1,
      by simp [forwardIterUpdate, hs]⟩

/-- Entry `k` of the non-analytic linearization loop started at timestep
`t0` on the nominal trajectory: Jacobian blocks at the nominal point
`(x_{t0+k}, u_{t0+k})` together with the residual
`dyn(x,u) - R·x - S·u` there, provided the nominal trajectory is a rollout
of the dynamics. -/
lemma linOtherGo_get (dyn : Vec α → Vec α → Vec α)
    (jac : Vec α → Vec α → Mat α × Mat α) (us xs : ℕ → Vec α)
    (hx : ∀ t, xs (t+1) = dyn (xs t) (us t)) :
    ∀ (steps t0 k : ℕ), k < steps →
      (linOtherGo dyn jac us steps t0 (xs t0))[k]? =
        some (jac (xs (t0+k)) (us (t0+k)),
          vsub (vsub (dyn (xs (t0+k)) (us (t0+k)))
              (bmv (jac (xs (t0+k)) (us (t0+k))).1 (xs (t0+k))))
            (bmv (jac (xs (t0+k)) (us (t0+k))).2 (us (t0+k)))) := by
  intro steps
  induction steps with
  | zero => intro t0 k hk; omega
  | succ steps ih =>
    intro t0 k hk
    cases k with
    | zero =>
      simp [linOtherGo]
    | succ k =>
      simp only [linOtherGo]
      rw [List.getElem?_cons_succ]
      have hnx : dyn (xs t0) (us t0) = xs (t0+1) := (hx t0).symm
      rw [hnx]
      have harith : t0 + (k+1) = (t0+1) + k := by omega
      rw [harith]
      exact ih (t0+1) k (by omega)

/-- Entry `t` of the `ANALYTIC` branch's output. -/
lemma linearize_analytic_get (dyn : Vec α → Vec α → Vec α)
    (grad_input : Vec α → Vec α → Mat α × Mat α) (T : ℕ) (xs us : ℕ → Vec α)
    (t : ℕ) (ht : t < T - 1) :
    (linearize_analytic dyn grad_input T xs us)[t]? =
      some (linearize_analytic_at dyn grad_input (xs t) (us t)) := by
  unfold linearize_analytic
  rw [List.getElem?_map]
  simp [List.getElem?_range, ht]

/-- The concrete trajectory `xsC` is the rollout of `dynC` under `usC`. -/
lemma xsC_traj : ∀ t, xsC (t+1) = dynC (xsC t) (usC t) := by
  intro t
  simp [xsC, dynC, usC]

end HelperLemmas

/-- C8: at entry to the forward solve, the batch size is `C.size(1)` when `C`
is 4-dimensional, otherwise the configured `n_batch`; when `C` is not
4-dimensional and no `n_batch` is configured, the solve fails immediately
with a fatal configuration error. -/
theorem C8_batch_size_inference :
    (∀ s nb, infer_n_batch 4 s nb = .ok s) ∧
    (∀ d s nb, d ≠ 4 → infer_n_batch d s (some nb) = .ok nb) ∧
    (∀ d s, d ≠ 4 → infer_n_batch d s none = .error .couldNotInferBatch) := by
  refine ⟨fun s nb => by simp [infer_n_batch], fun d s nb hd => ?_, fun d s hd => ?_⟩
  · simp [infer_n_batch, hd]
  · simp [infer_n_batch, hd]

/-- Witness for C8 at concrete inputs. -/
theorem C8_batch_size_inference_witness :
    infer_n_batch 4 7 none = .ok 7 ∧
    infer_n_batch 3 7 (some 5) = .ok 5 ∧
    infer_n_batch 3 7 none = .error .couldNotInferBatch :=
  ⟨C8_batch_size_inference.1 7 none,
   C8_batch_size_inference.2.1 3 7 5 (by decide),
   C8_batch_size_inference.2.2 3 7 (by decide)⟩

/-- C9: constructing the solver with exactly one of `u_lower`, `u_upper`
present raises an assertion failure at construction; with both or neither
present (and the remaining arguments at their defaults) construction
succeeds. -/
theorem C9_bounds_both_or_neither {α : Type} [LinearOrderedCommRing α] :
    (∀ a : MPCInitArgs α, a.u_lower.isSome ≠ a.u_upper.isSome →
      mpc_init a = .error .boundsOnlyOne) ∧
    (∀ lo hi : α,
      mpc_init { mpcDefaultArgs α with u_lower := some lo, u_upper := some hi }
        = .ok ()) ∧
    mpc_init (mpcDefaultArgs α) = .ok () := by
  refine ⟨fun a h => ?_, fun lo hi => ?_, ?_⟩
  · have : ¬(a.u_lower.isNone = a.u_upper.isNone) := by
      cases hl : a.u_lower <;> cases hu : a.u_upper <;>
        simp_all [Option.isSome, Option.isNone]
    simp [mpc_init, this]
  · simp [mpc_init, mpcDefaultArgs]
  · simp [mpc_init, mpcDefaultArgs]

/-- Witness for C9 at concrete inputs. -/
theorem C9_bounds_both_or_neither_witness :
    mpc_init { mpcDefaultArgs ℤ with u_lower := some 0 }
      = .error .boundsOnlyOne ∧
    mpc_init { mpcDefaultArgs ℤ with u_lower := some (-1), u_upper := some 1 }
      = .ok () :=
  ⟨C9_bounds_both_or_neither.1 _ (by decide),
   C9_bounds_both_or_neither.2.1 (-1) 1⟩

/-- C10: constructing the solver with a non-`None` affine residual `f` always
raises an assertion failure, whatever the other arguments (in particular even
with no slew-rate penalty), while supplying only `F` (with `f` absent and the
other arguments at their defaults) is accepted. -/
theorem C10_f_always_asserts {α : Type} [LinearOrderedCommRing α] :
    (∀ (a : MPCInitArgs α) (fv : α),
      ∃ e, mpc_init { a with f := some fv } = .error e) ∧
    (∀ Fv : α,
      mpc_init { mpcDefaultArgs α with F := some Fv } = .ok ()) := by
  constructor
  · intro a fv
    by_cases h1 : ({ a with f := some fv } : MPCInitArgs α).u_lower.isNone
        = a.u_upper.isNone
    · by_cases h2 : (0:ℤ) < a.max_linesearch_iter
      · exact ⟨.fUntested, by simp [mpc_init, h1, h2]⟩
      · exact ⟨.linesearchIterNonpos, by simp [mpc_init, h1, h2]⟩
    · exact ⟨.boundsOnlyOne, by simp [mpc_init, h1]⟩
  · intro Fv
    simp [mpc_init, mpcDefaultArgs]

/-- C1: for every solve with box bounds supplied, every control produced by
the LQR forward rollout lies within `[u_lower, u_upper]` elementwise and
exactly, for every timestep `t`, batch element `b` and control dimension
`m` (modelled from the spec: `LQRStep` is outside the visible sources). -/
theorem C1_controls_within_bounds {α : Type} [LinearOrderedCommRing α]
    (u_nom fb ff : ℕ → ℕ → ℕ → α) (alpha : ℕ → α)
    (u_lower u_upper : ℕ → ℕ → ℕ → α) (t b m : ℕ)
    (h : u_lower t b m ≤ u_upper t b m) :
    u_lower t b m ≤ lqrForwardPass u_nom fb ff alpha u_lower u_upper t b m ∧
    lqrForwardPass u_nom fb ff alpha u_lower u_upper t b m ≤ u_upper t b m := by
  unfold lqrForwardPass lqrForwardControl
  exact ⟨le_min h (le_max_left _ _), min_le_left _ _⟩

/-- Witness for C1 at a concrete input: nominal control 0, update 7, box
`[-1, 1]`. -/
theorem C1_controls_within_bounds_witness :
    (-1 : ℤ) ≤ lqrForwardPass (fun _ _ _ => 0) (fun _ _ _ => 5) (fun _ _ _ => 2)
        (fun _ => 1) (fun _ _ _ => (-1 : ℤ)) (fun _ _ _ => 1) 0 0 0 ∧
    lqrForwardPass (fun _ _ _ => 0) (fun _ _ _ => 5) (fun _ _ _ => 2)
        (fun _ => 1) (fun _ _ _ => (-1 : ℤ)) (fun _ _ _ => 1) 0 0 0 ≤ 1 :=
  C1_controls_within_bounds (fun _ _ _ => 0) (fun _ _ _ => 5) (fun _ _ _ => 2)
    (fun _ => 1) (fun _ _ _ => (-1 : ℤ)) (fun _ _ _ => 1) 0 0 0 (by decide)

/-- C2 counterexample: under the concrete iteration outputs `stepCX`
(batch size 2, `best_cost_eps = 1`, convergence `eps = 1`,
`not_improved_lim = 1`, `lqr_iter = 4`): element 0's cost improves every
iteration, element 1's never does.  The source's outer loop — whose
`n_not_improved` counter is one variable shared by the whole batch, reset
whenever ANY element improves (line 225) — runs all 4 iterations, while the
loop the claim describes, with a counter per batch element, stops after
iteration 3 because element 1's counter exceeds the limit.  The claimed
per-element counters therefore do not describe the code. -/
theorem C2_counterexample :
    (forwardLoop (1:ℤ) 1 1 2 4 stepCX).2 = 4 ∧
    (claimLoop (1:ℤ) 1 1 2 4 stepCX).2 = 3 := by decide

/-- C2 (amended): in each outer iteration with a best record present, each
batch element whose new cost is at most its recorded best minus
`best_cost_eps` independently has the new trajectory, cost and step norm
adopted as its best; the non-improvement counter is a single one shared by
the whole batch — it ends the iteration at zero when at least one element
improved, and is otherwise incremented once for the whole iteration. -/
theorem C2_shared_counter {α : Type} [LinearOrderedCommRing α]
    (best_cost_eps : α) (n_batch i : ℕ) (fo : ForOut α) (b : BestRec α)
    (cnt j : ℕ) (hj : j < n_batch) :
    (fo.costs j ≤ b.costs j - best_cost_eps →
      bestCosts (forwardIterUpdate best_cost_eps n_batch i fo ⟨some b, cnt⟩) j
        = fo.costs j ∧
      bestIterOf (forwardIterUpdate best_cost_eps n_batch i fo ⟨some b, cnt⟩) j
        = i ∧
      bestNorm (forwardIterUpdate best_cost_eps n_batch i fo ⟨some b, cnt⟩) j
        = fo.full_du_norm j) ∧
    (¬(fo.costs j ≤ b.costs j - best_cost_eps) →
      bestCosts (forwardIterUpdate best_cost_eps n_batch i fo ⟨some b, cnt⟩) j
        = b.costs j ∧
      bestIterOf (forwardIterUpdate best_cost_eps n_batch i fo ⟨some b, cnt⟩) j
        = b.iterOf j ∧
      bestNorm (forwardIterUpdate best_cost_eps n_batch i fo ⟨some b, cnt⟩) j
        = b.full_du_norm j) ∧
    ((∃ k, k < n_batch ∧ fo.costs k ≤ b.costs k - best_cost_eps) →
      (forwardIterUpdate best_cost_eps n_batch i fo
        ⟨some b, cnt⟩).n_not_improved = 0) ∧
    ((∀ k, k < n_batch → ¬(fo.costs k ≤ b.costs k - best_cost_eps)) →
      (forwardIterUpdate best_cost_eps n_batch i fo
        ⟨some b, cnt⟩).n_not_improved = cnt + 1) := by
  have hred : forwardIterUpdate best_cost_eps n_batch i fo ⟨some b, cnt⟩
      = ⟨some (bestUpdate best_cost_eps i fo n_batch b (cnt+1)).1,
         (bestUpdate best_cost_eps i fo n_batch b (cnt+1)).2⟩ := rfl
  have hent := bestUpdate_entry best_cost_eps i fo n_batch b (cnt+1) j hj
  have hcnt := bestUpdate_counter best_cost_eps i fo n_batch b (cnt+1)
  refine ⟨fun hc => ?_, fun hc => ?_, fun hex => ?_, fun hall => ?_⟩
  · obtain ⟨e1, e2, e3⟩ := hent.1 hc
    rw [hred]
    exact ⟨e1, e2, e3⟩
  · obtain ⟨e1, e2, e3⟩ := hent.2 hc
    rw [hred]
    exact ⟨e1, e2, e3⟩
  · rw [hred]
    exact hcnt.1 hex
  · rw [hred]
    exact hcnt.2 hall

/-- Witness for the amended C2 at a concrete input: element 0 improves
(cost −5 against best 0 with margin 1), so its record is overwritten and
the shared counter ends at zero. -/
theorem C2_shared_counter_witness :
    bestCosts (forwardIterUpdate (1:ℤ) 2 4 foW ⟨some bW, 7⟩) 0 = foW.costs 0 ∧
    bestIterOf (forwardIterUpdate (1:ℤ) 2 4 foW ⟨some bW, 7⟩) 0 = 4 ∧
    bestNorm (forwardIterUpdate (1:ℤ) 2 4 foW ⟨some bW, 7⟩) 0
      = foW.full_du_norm 0 ∧
    (forwardIterUpdate (1:ℤ) 2 4 foW ⟨some bW, 7⟩).n_not_improved = 0 := by
  have h := C2_shared_counter (1:ℤ) 2 4 foW bW 7 0 (by decide)
  obtain ⟨e1, e2, e3⟩ := h.1 (by decide)
  exact ⟨e1, e2, e3, h.2.2.1 ⟨0, by decide, by decide⟩⟩

/-- C3 counterexample: with `detach_unconverged = False` and
`exit_unconverged = True`, a batch element whose full control-step norm (2)
exceeds the threshold (`eps = 1`) causes neither a fatal abort nor a detach:
the whole unconverged check of lines 257–270, including the
`exit_unconverged` assert, sits inside `if self.detach_unconverged:`, so the
solver returns normally — contradicting the claim that exit-on-unconverged
alone makes it fail fast. -/
theorem C3_counterexample :
    isFatal (detachPhase false true 0 (1:ℤ) 1 (fun _ => 2) (fun _ => 2))
      = false := by decide

/-- C3 (amended): the unconverged handling runs only when
`detach_unconverged` is enabled.  Then, when the maximum over the batch of
the BEST records' full control-step norms exceeds `eps`: with
`exit_unconverged` the solver fails fatally, and otherwise it warns (when
`verbose ≥ 0`), keeps attached exactly the elements whose LAST-iterate full
control-step norm is strictly below `eps`, detaches the rest, and still
returns the trajectory.  With `detach_unconverged` disabled — whatever
`exit_unconverged` — everything is returned attached, with no warning and
no failure. -/
theorem C3_detach_guarded {α : Type} [LinearOrderedCommRing α] (verbose : ℤ)
    (eps : α) (n_batch : ℕ) (best_norms last_norms : ℕ → α) :
    (maxOver n_batch best_norms > eps →
      detachPhase true true verbose eps n_batch best_norms last_norms
        = .fatal) ∧
    (maxOver n_batch best_norms > eps →
      detachPhase true false verbose eps n_batch best_norms last_norms
        = .returned (fun j => decide (last_norms j < eps))
            (decide (0 ≤ verbose))) ∧
    (¬(maxOver n_batch best_norms > eps) → ∀ ex,
      detachPhase true ex verbose eps n_batch best_norms last_norms
        = .returned (fun _ => true) false) ∧
    (∀ ex, detachPhase false ex verbose eps n_batch best_norms last_norms
        = .returned (fun _ => true) false) := by
  refine ⟨fun h => ?_, fun h => ?_, fun h ex => ?_, fun ex => ?_⟩
  · simp [detachPhase, h]
  · simp [detachPhase, h]
  · simp [detachPhase, h]
  · simp [detachPhase]

/-- Witness for the amended C3 at concrete inputs: an unconverged element
under `detach_unconverged` aborts when `exit_unconverged` is set and is
detached otherwise. -/
theorem C3_detach_guarded_witness :
    detachPhase true true 0 (1:ℤ) 1 (fun _ => 2) (fun _ => 2) = .fatal ∧
    detachPhase true false 0 (1:ℤ) 1 (fun _ => 2) (fun _ => 2)
      = .returned (fun j => decide ((fun _ => (2:ℤ)) j < 1))
          (decide ((0:ℤ) ≤ 0)) :=
  ⟨(C3_detach_guarded 0 1 1 (fun _ => 2) (fun _ => 2)).1 (by decide),
   (C3_detach_guarded 0 1 1 (fun _ => 2) (fun _ => 2)).2.1 (by decide)⟩

/-- C4: with a nonnegative margin, the best cost recorded for any batch
element is non-increasing from one outer iteration to the next; when the
entry changes it does so by at least `best_cost_eps`, hence (for a positive
margin) to a strictly lower cost. -/
theorem C4_best_cost_monotone {α : Type} [LinearOrderedCommRing α]
    (best_cost_eps : α) (n_batch : ℕ) (step : ℕ → ForOut α)
    (h0 : 0 ≤ best_cost_eps) (n j : ℕ) (hn : 1 ≤ n) (hj : j < n_batch) :
    bestCosts (forwardStateAfter best_cost_eps n_batch step (n+1)) j
      ≤ bestCosts (forwardStateAfter best_cost_eps n_batch step n) j ∧
    (bestCosts (forwardStateAfter best_cost_eps n_batch step (n+1)) j
        ≠ bestCosts (forwardStateAfter best_cost_eps n_batch step n) j →
      bestCosts (forwardStateAfter best_cost_eps n_batch step (n+1)) j
        ≤ bestCosts (forwardStateAfter best_cost_eps n_batch step n) j
          - best_cost_eps) ∧
    (0 < best_cost_eps →
      bestCosts (forwardStateAfter best_cost_eps n_batch step (n+1)) j
        ≠ bestCosts (forwardStateAfter best_cost_eps n_batch step n) j →
      bestCosts (forwardStateAfter best_cost_eps n_batch step (n+1)) j
        < bestCosts (forwardStateAfter best_cost_eps n_batch step n) j) := by
  obtain ⟨m, rfl⟩ : ∃ m, n = m + 1 := ⟨n - 1, by omega⟩
  obtain ⟨b, hb⟩ := forwardIterUpdate_best_isSome best_cost_eps n_batch m
    (step m) (forwardStateAfter best_cost_eps n_batch step m)
  rcases hS : forwardStateAfter best_cost_eps n_batch step (m+1)
    with ⟨obest, ocnt⟩
  have hb' : obest = some b := by
    have : (forwardStateAfter best_cost_eps n_batch step (m+1)).best
        = some b := hb
    rw [hS] at this
    exact this
  subst hb'
  have hN1 : forwardStateAfter best_cost_eps n_batch step (m+1+1)
      = forwardIterUpdate best_cost_eps n_batch (m+1) (step (m+1))
          ⟨some b, ocnt⟩ := by
    have : forwardStateAfter best_cost_eps n_batch step (m+1+1)
        = forwardIterUpdate best_cost_eps n_batch (m+1) (step (m+1))
            (forwardStateAfter best_cost_eps n_batch step (m+1)) := rfl
    rw [this, hS]
  have hcosts1 : bestCosts
        (forwardStateAfter best_cost_eps n_batch step (m+1+1)) j
      = (bestUpdate best_cost_eps (m+1) (step (m+1)) n_batch b
          (ocnt+1)).1.costs j := by
    rw [hN1]
    rfl
  have hcosts0 : bestCosts
        (forwardStateAfter best_cost_eps n_batch step (m+1)) j
      = b.costs j := by
    rw [hS]
    rfl
  have hent := bestUpdate_entry best_cost_eps (m+1) (step (m+1)) n_batch b
    (ocnt+1) j hj
  have hcostsb : bestCosts (⟨some b, ocnt⟩ : LoopState α) j = b.costs j := rfl
  by_cases hc : (step (m+1)).costs j ≤ b.costs j - best_cost_eps
  · obtain ⟨e1, _, _⟩ := hent.1 hc
    rw [hcosts1, e1, hcostsb]
    exact ⟨le_trans hc (by linarith), fun _ => hc,
      fun hpos _ => lt_of_le_of_lt hc (by linarith)⟩
  · obtain ⟨e1, _, _⟩ := hent.2 hc
    rw [hcosts1, e1, hcostsb]
    exact ⟨le_refl _, fun hne => absurd rfl hne, fun _ hne => absurd rfl hne⟩

/-- Witness for C4 at a concrete input (`stepCX`, element 0, from iteration
1 to iteration 2). -/
theorem C4_best_cost_monotone_witness :
    bestCosts (forwardStateAfter (1:ℤ) 2 stepCX (1+1)) 0
      ≤ bestCosts (forwardStateAfter (1:ℤ) 2 stepCX 1) 0 ∧
    (bestCosts (forwardStateAfter (1:ℤ) 2 stepCX (1+1)) 0
        ≠ bestCosts (forwardStateAfter (1:ℤ) 2 stepCX 1) 0 →
      bestCosts (forwardStateAfter (1:ℤ) 2 stepCX (1+1)) 0
        ≤ bestCosts (forwardStateAfter (1:ℤ) 2 stepCX 1) 0 - 1) ∧
    (0 < (1:ℤ) →
      bestCosts (forwardStateAfter (1:ℤ) 2 stepCX (1+1)) 0
        ≠ bestCosts (forwardStateAfter (1:ℤ) 2 stepCX 1) 0 →
      bestCosts (forwardStateAfter (1:ℤ) 2 stepCX (1+1)) 0
        < bestCosts (forwardStateAfter (1:ℤ) 2 stepCX 1) 0) :=
  C4_best_cost_monotone 1 2 stepCX (by decide) 1 0 (by decide) (by decide)

/-- C5: for every linearization strategy — analytic, automatic
differentiation, finite differences — `linearize_dynamics` returns at each
timestep `t = 0..T-2` the Jacobian blocks `(R_t, S_t)` together with the
residual `f_t = dyn(x_t, u_t) - R_t·x_t - S_t·u_t` at the nominal point,
where the nominal trajectory is the rollout of the dynamics under the
controls (as `MPC.forward` produces before each call). -/
theorem C5_residual {α : Type} [LinearOrderedCommRing α]
    (dyn : Vec α → Vec α → Vec α)
    (grad_input jacAD jacFD : Vec α → Vec α → Mat α × Mat α) (T : ℕ)
    (xs us : ℕ → Vec α) (hx : ∀ t, xs (t+1) = dyn (xs t) (us t))
    (t : ℕ) (ht : t < T - 1) :
    (∃ l, linearize_dynamics .ANALYTIC dyn grad_input jacAD jacFD T xs us
        = .ok l ∧
      l[t]? = some (grad_input (xs t) (us t),
        vsub (vsub (dyn (xs t) (us t))
            (bmv (grad_input (xs t) (us t)).1 (xs t)))
          (bmv (grad_input (xs t) (us t)).2 (us t)))) ∧
    (∃ l, linearize_dynamics .AUTO_DIFF dyn grad_input jacAD jacFD T xs us
        = .ok l ∧
      l[t]? = some (jacAD (xs t) (us t),
        vsub (vsub (dyn (xs t) (us t))
            (bmv (jacAD (xs t) (us t)).1 (xs t)))
          (bmv (jacAD (xs t) (us t)).2 (us t)))) ∧
    (∃ l, linearize_dynamics .FINITE_DIFF dyn grad_input jacAD jacFD T xs us
        = .ok l ∧
      l[t]? = some (jacFD (xs t) (us t),
        vsub (vsub (dyn (xs t) (us t))
            (bmv (jacFD (xs t) (us t)).1 (xs t)))
          (bmv (jacFD (xs t) (us t)).2 (us t)))) := by
  refine ⟨⟨_, rfl, ?_⟩, ⟨_, rfl, ?_⟩, ⟨_, rfl, ?_⟩⟩
  · rw [linearize_analytic_get dyn grad_input T xs us t ht]
    rfl
  · have h := linOtherGo_get dyn jacAD us xs hx (T-1) 0 t ht
    simpa [linearize_other] using h
  · have h := linOtherGo_get dyn jacFD us xs hx (T-1) 0 t ht
    simpa [linearize_other] using h

/-- Witness for C5 at a concrete input: scalar dynamics `x' = x + u`, unit
controls, horizon `T = 3`, timestep `t = 1`. -/
theorem C5_residual_witness :
    ∃ l, linearize_dynamics .AUTO_DIFF dynC jacC jacC jacC 3 xsC usC
        = .ok l ∧
      l[1]? = some (jacC (xsC 1) (usC 1),
        vsub (vsub (dynC (xsC 1) (usC 1))
            (bmv (jacC (xsC 1) (usC 1)).1 (xsC 1)))
          (bmv (jacC (xsC 1) (usC 1)).2 (usC 1))) :=
  (C5_residual dynC jacC jacC jacC 3 xsC usC xsC_traj 1 (by decide)).2.1

/-- C6 counterexample: at `T = 3` the `ANALYTIC_CHECK` branch raises the
unconditional `assert False # Not updated` of line 454 — identically
whether the analytic Jacobian agrees exactly with the
automatic-differentiation one (`jacC` vs `jacC`) or disagrees grossly
(`jacBadC` vs `jacC`).  It performs no cross-validation and never reaches
the diagnostic or success messages and `sys.exit(0)` of lines 455–468,
contradicting the claimed validate-and-report behavior. -/
theorem C6_counterexample :
    linearize_dynamics .ANALYTIC_CHECK dynC jacC jacC jacC 3 xsC usC
      = .error .assertionFailure ∧
    linearize_dynamics .ANALYTIC_CHECK dynC jacBadC jacC jacC 3 xsC usC
      = .error .assertionFailure :=
  ⟨rfl, rfl⟩

/-- C6 (amended): when the analytic-check strategy is selected,
`linearize_dynamics` never cross-validates anything: for every input with
`T ≥ 2` it raises an unconditional assertion failure (line 454, marked
"Not updated"); the validation, diagnostics and exit below it are dead
code. -/
theorem C6_check_always_asserts {α : Type} [LinearOrderedCommRing α]
    (dyn : Vec α → Vec α → Vec α)
    (grad_input jacAD jacFD : Vec α → Vec α → Mat α × Mat α) (T : ℕ)
    (xs us : ℕ → Vec α) (hT : 2 ≤ T) :
    linearize_dynamics .ANALYTIC_CHECK dyn grad_input jacAD jacFD T xs us
      = .error .assertionFailure := by
  simp [linearize_dynamics, hT]

/-- Witness for the amended C6 at a concrete input (`T = 5`). -/
theorem C6_check_always_asserts_witness :
    linearize_dynamics .ANALYTIC_CHECK dynC jacBadC jacC jacC 5 xsC usC
      = .error .assertionFailure :=
  C6_check_always_asserts dynC jacBadC jacC jacC 5 xsC usC (by decide)

/-- C7: the outer loop executes at most `lqr_iter` iterations; its state
after stopping is exactly the fold of the per-iteration bodies; it never
runs past an iteration whose end-of-body break test — `max` over the batch
of the current iterate's full control-step norms below `eps`, or the
non-improvement counter exceeding `not_improved_lim` — succeeds, and it
exits early (strictly before `lqr_iter`) exactly when that test succeeded
at the last executed iteration. -/
theorem C7_outer_loop_termination {α : Type} [LinearOrderedCommRing α]
    (best_cost_eps eps : α) (not_improved_lim n_batch lqr_iter : ℕ)
    (step : ℕ → ForOut α) :
    (forwardLoop best_cost_eps eps not_improved_lim n_batch lqr_iter step).2
      ≤ lqr_iter ∧
    (forwardLoop best_cost_eps eps not_improved_lim n_batch lqr_iter step).1
      = forwardStateAfter best_cost_eps n_batch step
          (forwardLoop best_cost_eps eps not_improved_lim n_batch lqr_iter
            step).2 ∧
    (∀ k, k + 1 <
        (forwardLoop best_cost_eps eps not_improved_lim n_batch lqr_iter
          step).2 →
      ¬ breakCondAt best_cost_eps eps not_improved_lim n_batch step k) ∧
    ((forwardLoop best_cost_eps eps not_improved_lim n_batch lqr_iter step).2
        < lqr_iter →
      0 < (forwardLoop best_cost_eps eps not_improved_lim n_batch lqr_iter
            step).2 ∧
      breakCondAt best_cost_eps eps not_improved_lim n_batch step
        ((forwardLoop best_cost_eps eps not_improved_lim n_batch lqr_iter
          step).2 - 1)) := by
  have h := forwardLoopGo_spec best_cost_eps eps not_improved_lim n_batch
    step lqr_iter lqr_iter 0 ⟨none, 0⟩ rfl (by omega)
  exact ⟨h.2.1, h.2.2.1, fun k hk => h.2.2.2.1 k (Nat.zero_le k) hk,
    fun hlt => h.2.2.2.2 hlt⟩

/-- Witness for C7 at a concrete input: with `not_improved_lim = 0` and
never-converging norms, the loop breaks after its first iteration, strictly
before `lqr_iter = 2`, and the break test holds there. -/
theorem C7_outer_loop_termination_witness :
    (forwardLoop (1:ℤ) 1 0 1 2 stepFlat).2 ≤ 2 ∧
    (0 < (forwardLoop (1:ℤ) 1 0 1 2 stepFlat).2 ∧
      breakCondAt (1:ℤ) 1 0 1 stepFlat
        ((forwardLoop (1:ℤ) 1 0 1 2 stepFlat).2 - 1)) :=
  ⟨(C7_outer_loop_termination 1 1 0 1 2 stepFlat).1,
   (C7_outer_loop_termination 1 1 0 1 2 stepFlat).2.2.2 (by decide)⟩
